import Mathlib

/-!
Shallow embedding of `src/poetry/puzzle/transaction.py` (class `Transaction`,
method `calculate_operations`) together with models of the two external
collaborators it consumes (`Package.is_same_package_as` from the package
record model and `get_extra_package_names`, the extras resolver), and
theorems checking the specification claims against it.

Conventions of the embedding:
- normalized package names and source types are strings; the wildcard
  Python value `None` for `source_type` / `source_url` / `source_reference`
  becomes `Option.none`;
- versions are natural numbers: `calculate_operations` only ever compares
  versions for equality and uses their total order as the last sort key, so
  any linearly ordered type is faithful;
- Python sets that are used only through membership become lists queried
  with `List.contains`;
- the `assert` on line 48 of the source (extras supplied without a root
  package) is modelled by returning `Option.none` from the planner;
- the body of the Python method is split phase by phase
  (classification, removal sweep, synchronize sweep, final sort) into
  separate definitions that `calculateOperationsUnsorted` glues together
  exactly in source order; the mutable `uninstalls` set is recovered as
  the names of the `Uninstall` operations accumulated so far
  (`uninstallNames`), which is what the source maintains, and is threaded
  explicitly through the synchronize sweep where it also grows.
-/

/-- Package record model: identity, version and provenance of a package,
as used by the transaction planner. `requires` holds the names of the
dependencies of the package (used only by the extras resolver). `extras`
maps an extra name to the names of the dependencies it activates. -/
structure Package where
  name : String
  version : Nat
  sourceType : Option String
  sourceUrl : Option String
  sourceReference : Option String
  optional : Bool
  requires : List String
  extras : List (String × List String)
deriving DecidableEq, Repr

/-- Truthiness of a Python `str | None` value: `None` and the empty string
are falsy, every other string is truthy. -/
def strTruthy : Option String → Bool
  | none => false
  | some s => !(s == "")

/-- Modelled from the spec: the structural equivalence check
`is_same_package_as` of the package record model (the record model is an
external collaborator whose code is not part of this planner source). Per
the data model it compares the identity-relevant attributes - the name and
the source descriptors - independent of the version. -/
def Package.is_same_package_as (p q : Package) : Bool :=
  p.name == q.name && p.sourceType == q.sourceType
    && p.sourceUrl == q.sourceUrl && p.sourceReference == q.sourceReference

/-- One step of the dependency walk of the extras resolver: keep the
current names and add the dependency names of every listed package whose
name is already included. -/
def extraStep (packages : List Package) (names : List String) : List String :=
  names ++ (packages.filter (fun p => names.contains p.name)).flatMap (fun p => p.requires)

/-- Iterated dependency walk, fuelled by a step count. -/
def extraWalk (packages : List Package) : Nat → List String → List String
  | 0, names => names
  | n + 1, names => extraWalk packages n (extraStep packages names)

/-- Modelled from the spec: the extras resolver `get_extra_package_names`
(an external collaborator, not part of this planner source). Given the
resolved package list, the extras map of the root project and the selected
extra names, it returns the transitive set of package names required by
the selected extras: the names that the extras map assigns to the selected
extras, closed under the dependencies of the listed packages, restricted
to names of listed packages. -/
def get_extra_package_names (packages : List Package)
    (extrasMap : List (String × List String)) (extraNames : List String) : List String :=
  let seeds := extraNames.flatMap (fun e => ((extrasMap.lookup e).getD []))
  (extraWalk packages packages.length seeds).filter
    (fun n => packages.any (fun p => p.name == n))

/-- Operation model: the tagged union over Install, Update and Uninstall.
Each variant carries a priority and an optional skip reason; the source
constructs Uninstall operations (and the skip-marked Install of an already
installed package) without an explicit priority, which we embed as the
shared default priority 0. -/
inductive Operation where
  | install (package : Package) (priority : Int) (skipReason : Option String)
  | update (source : Package) (target : Package) (priority : Int) (skipReason : Option String)
  | uninstall (package : Package) (priority : Int) (skipReason : Option String)
deriving DecidableEq, Repr

/-- The primary subject of an operation, `o.package` in the source: the
destination (target) package for an Update. -/
def Operation.package : Operation → Package
  | .install p _ _ => p
  | .update _ t _ _ => t
  | .uninstall p _ _ => p

/-- The priority of an operation. -/
def Operation.priority : Operation → Int
  | .install _ pr _ => pr
  | .update _ _ pr _ => pr
  | .uninstall _ pr _ => pr

/-- Boolean lexicographic comparison realizing the sort key of the final
`sorted` call: `(-o.priority, o.package.name, o.package.version)`. -/
def opKeyLE (a b : Operation) : Bool :=
  if -a.priority < -b.priority then true
  else if -b.priority < -a.priority then false
  else if a.package.name < b.package.name then true
  else if b.package.name < a.package.name then false
  else decide (a.package.version ≤ b.package.version)

/-- The sort-key order as a proposition, for use with the sorting lemmas. -/
def opLE (a b : Operation) : Prop := opKeyLE a b = true

instance : DecidableRel opLE := fun a b => Bool.decEq (opKeyLE a b) true

/-- Line 58 of the source: a result package is an unsolicited extra when
extras were given, the package is optional and its name is not in the
solicited closure. -/
def isUnsolicitedExtra (extrasGiven : Bool) (rp : Package)
    (extraPackages : List String) : Bool :=
  extrasGiven && (rp.optional && !(extraPackages.contains rp.name))

/-- Classification of one `(result_package, priority)` entry against the
installed snapshot (lines 56 to 106 of the source). The inner Python loop
breaks at the first installed package with a matching name, which is
`List.find?`. -/
def classifyOne (installedPackages : List Package) (extrasGiven : Bool)
    (extraPackages : List String) (skipDirectory : Bool)
    (rp : Package) (priority : Int) : List Operation :=
  match installedPackages.find? (fun ip => ip.name == rp.name) with
  | some ip =>
    if isUnsolicitedExtra extrasGiven rp extraPackages then
      [.uninstall ip 0 none]
    else if rp.version != ip.version
        || ((strTruthy ip.sourceType || !(rp.sourceType == some "legacy"))
            && !(rp.is_same_package_as ip)) then
      [.update ip rp priority none]
    else
      [.install rp 0 (some "Already installed")]
  | none =>
    if skipDirectory && (rp.sourceType == some "directory") then []
    else
      [.install rp priority
        (if isUnsolicitedExtra extrasGiven rp extraPackages then some "Not required" else none)]

/-- The whole classification phase, in result order. -/
def classifyOps (installedPackages : List Package) (extrasGiven : Bool)
    (extraPackages : List String) (skipDirectory : Bool)
    (resultPackages : List (Package × Int)) : List Operation :=
  resultPackages.flatMap
    (fun e => classifyOne installedPackages extrasGiven extraPackages skipDirectory e.1 e.2)

/-- Removal sweep (lines 109 to 119 of the source): for every current
package whose name does not appear in the result set, uninstall every
installed package bearing that name. -/
def removalSweepOps (currentPackages : List Package)
    (resultPackages : List (Package × Int)) (installedPackages : List Package) :
    List Operation :=
  currentPackages.flatMap (fun cp =>
    if resultPackages.any (fun e => cp.name == e.1.name) then []
    else installedPackages.filterMap (fun ip =>
      if ip.name == cp.name then some (.uninstall ip 0 none) else none))

/-- The names recorded in the mutable `uninstalls` set of the source after
a list of operations has been accumulated: every `uninstalls.add` in the
source is paired with appending an Uninstall of a package with that name. -/
def uninstallNames (ops : List Operation) : List String :=
  ops.filterMap (fun o => match o with
    | .uninstall p _ _ => some p.name
    | _ => none)

/-- Synchronize sweep (lines 121 to 144 of the source), threading the
`uninstalls` set it both consults and extends. An installed package is
skipped when its name is already recorded for removal, when it is the
root package, when it is preserved ("pip" while absent from the result
set), or when it appears in the result set; otherwise it is uninstalled
and recorded. -/
def syncSweep (resultNames : List String) (rootPackage : Option Package)
    (uninstalls : List String) : List Package → List Operation
  | [] => []
  | ip :: rest =>
    if uninstalls.contains ip.name then
      syncSweep resultNames rootPackage uninstalls rest
    else if (match rootPackage with
            | some r => ip.name == r.name
            | none => false) then
      syncSweep resultNames rootPackage uninstalls rest
    else if ip.name == "pip" && !(resultNames.contains "pip") then
      syncSweep resultNames rootPackage uninstalls rest
    else if resultNames.contains ip.name then
      syncSweep resultNames rootPackage uninstalls rest
    else
      .uninstall ip 0 none :: syncSweep resultNames rootPackage (ip.name :: uninstalls) rest

/-- The state of a `Transaction` after `__init__` (a `None` installed list
is already normalized to the empty list there). -/
structure Transaction where
  currentPackages : List Package
  resultPackages : List (Package × Int)
  installedPackages : List Package
  rootPackage : Option Package
deriving Repr

/-- The solicited-extras closure computed on lines 46 to 53 of the source:
empty when extras are not given, otherwise the extras resolver applied to
the result packages, the extras map of the root package and the selected
extra names. -/
def extraPackagesOf (t : Transaction) (extras : Option (List String)) : List String :=
  match extras, t.rootPackage with
  | some es, some root =>
    get_extra_package_names (t.resultPackages.map (fun e => e.1)) root.extras es
  | _, _ => []

/-- The operation list accumulated by `calculate_operations` before the
final sort: classification phase, then (when `with_uninstalls`) the
removal sweep, then (when additionally `synchronize`) the synchronize
sweep seeded with the removal names recorded so far. -/
def accumulatedOps (t : Transaction)
    (withUninstalls synchronize skipDirectory : Bool)
    (extras : Option (List String)) : List Operation :=
  let extraPackages := extraPackagesOf t extras
  let classifyPhase :=
    classifyOps t.installedPackages extras.isSome extraPackages skipDirectory
      t.resultPackages
  let removalPhase :=
    if withUninstalls then
      removalSweepOps t.currentPackages t.resultPackages t.installedPackages
    else []
  let syncPhase :=
    if withUninstalls && synchronize then
      syncSweep (t.resultPackages.map (fun e => e.1.name)) t.rootPackage
        (uninstallNames (classifyPhase ++ removalPhase)) t.installedPackages
    else []
  classifyPhase ++ removalPhase ++ syncPhase

/-- The accumulation guarded by the precondition check of lines 46 to 48 of
the source: `none` embeds the assertion failure when extras are supplied
without a root package. -/
def calculateOperationsUnsorted (t : Transaction)
    (withUninstalls synchronize skipDirectory : Bool)
    (extras : Option (List String)) : Option (List Operation) :=
  if extras.isSome && t.rootPackage.isNone then none
  else some (accumulatedOps t withUninstalls synchronize skipDirectory extras)

/-- `calculate_operations` (lines 32 to 153 of the source): the
accumulated operations sorted by priority descending, then package name
ascending, then package version ascending. -/
def calculateOperations (t : Transaction)
    (withUninstalls synchronize skipDirectory : Bool)
    (extras : Option (List String)) : Option (List Operation) :=
  (calculateOperationsUnsorted t withUninstalls synchronize skipDirectory extras).map
    (fun ops => List.insertionSort opLE ops)

/-! ### Order properties of the sort key -/

/-- Characterization of the boolean sort-key comparison as a lexicographic
proposition. -/
theorem opKeyLE_iff (a b : Operation) :
    opKeyLE a b = true ↔
      (-a.priority < -b.priority ∨
        (-a.priority = -b.priority ∧
          (a.package.name < b.package.name ∨
            (a.package.name = b.package.name ∧
              a.package.version ≤ b.package.version)))) := by
  unfold opKeyLE
  split_ifs with h1 h2 h3 h4
  · exact iff_of_true rfl (Or.inl h1)
  · refine iff_of_false (by simp) ?_
    rintro (h | ⟨he, h⟩) <;> omega
  · exact iff_of_true rfl (Or.inr ⟨by omega, Or.inl h3⟩)
  · refine iff_of_false (by simp) ?_
    rintro (h | ⟨he, h | ⟨hn, hv⟩⟩)
    · omega
    · exact h3 h
    · simp [hn] at h4
  · have hn : a.package.name = b.package.name :=
      le_antisymm (not_lt.mp h4) (not_lt.mp h3)
    constructor
    · intro h
      exact Or.inr ⟨by omega, Or.inr ⟨hn, of_decide_eq_true h⟩⟩
    · rintro (h | ⟨he, h | ⟨hm, hv⟩⟩)
      · omega
      · exact absurd h h3
      · exact decide_eq_true hv

theorem opLE_trans (a b c : Operation) (hab : opLE a b) (hbc : opLE b c) :
    opLE a c := by
  unfold opLE at *
  rw [opKeyLE_iff] at hab hbc ⊢
  rcases hab with h1 | ⟨e1, h1⟩
  · rcases hbc with h2 | ⟨e2, h2⟩ <;> exact Or.inl (by omega)
  · rcases hbc with h2 | ⟨e2, h2⟩
    · exact Or.inl (by omega)
    · refine Or.inr ⟨by omega, ?_⟩
      rcases h1 with hn1 | ⟨hn1, hv1⟩
      · rcases h2 with hn2 | ⟨hn2, hv2⟩
        · exact Or.inl (lt_trans hn1 hn2)
        · exact Or.inl (lt_of_lt_of_le hn1 (le_of_eq hn2))
      · rcases h2 with hn2 | ⟨hn2, hv2⟩
        · exact Or.inl (lt_of_le_of_lt (le_of_eq hn1) hn2)
        · exact Or.inr ⟨hn1.trans hn2, le_trans hv1 hv2⟩

theorem opLE_total (a b : Operation) : opLE a b ∨ opLE b a := by
  unfold opLE
  rw [opKeyLE_iff, opKeyLE_iff]
  rcases lt_trichotomy (-a.priority) (-b.priority) with h | h | h
  · exact Or.inl (Or.inl h)
  · rcases lt_trichotomy a.package.name b.package.name with hn | hn | hn
    · exact Or.inl (Or.inr ⟨h, Or.inl hn⟩)
    · rcases Nat.le_total a.package.version b.package.version with hv | hv
      · exact Or.inl (Or.inr ⟨h, Or.inr ⟨hn, hv⟩⟩)
      · exact Or.inr (Or.inr ⟨h.symm, Or.inr ⟨hn.symm, hv⟩⟩)
    · exact Or.inr (Or.inr ⟨h.symm, Or.inl hn⟩)
  · exact Or.inr (Or.inl h)

instance : IsTrans Operation opLE := ⟨opLE_trans⟩

instance : IsTotal Operation opLE := ⟨opLE_total⟩

/-! ### Shape lemmas about the phases -/

/-- Every operation emitted while classifying one result entry targets the
name of that result package. -/
theorem classifyOne_package_name (inst : List Package) (eg : Bool)
    (eps : List String) (sd : Bool) (rp : Package) (pr : Int) (op : Operation)
    (h : op ∈ classifyOne inst eg eps sd rp pr) : op.package.name = rp.name := by
  unfold classifyOne at h
  split at h
  next ip hf =>
    have hname : ip.name = rp.name := by
      have := List.find?_some hf
      simpa using this
    split_ifs at h <;> simp only [List.mem_singleton] at h <;>
      subst h <;> simp [Operation.package, hname]
  next hf =>
    split_ifs at h <;> simp at h <;> subst h <;> simp [Operation.package]

/-- Every operation of the classification phase targets the name of some
result entry. -/
theorem classifyOps_name_mem (inst : List Package) (eg : Bool)
    (eps : List String) (sd : Bool) (res : List (Package × Int)) (op : Operation)
    (h : op ∈ classifyOps inst eg eps sd res) :
    ∃ e ∈ res, e.1.name = op.package.name := by
  unfold classifyOps at h
  rw [List.mem_flatMap] at h
  obtain ⟨e, he, hop⟩ := h
  exact ⟨e, he, (classifyOne_package_name inst eg eps sd e.1 e.2 op hop).symm⟩

/-- Every operation of the removal sweep is an Uninstall whose target name
is absent from the result set. -/
theorem removalSweepOps_shape (cur : List Package) (res : List (Package × Int))
    (inst : List Package) (op : Operation) (h : op ∈ removalSweepOps cur res inst) :
    (∃ p, p ∈ inst ∧ op = Operation.uninstall p 0 none) ∧
      ∀ e ∈ res, e.1.name ≠ op.package.name := by
  unfold removalSweepOps at h
  rw [List.mem_flatMap] at h
  obtain ⟨cp, hcp, hop⟩ := h
  by_cases hf : res.any (fun e => cp.name == e.1.name)
  · rw [if_pos hf] at hop
    simp at hop
  · rw [if_neg hf] at hop
    rw [List.mem_filterMap] at hop
    obtain ⟨ip, hip, hite⟩ := hop
    by_cases hn : ip.name == cp.name
    · rw [if_pos hn] at hite
      have hopEq : op = Operation.uninstall ip 0 none := by
        cases hite
        rfl
      subst hopEq
      refine ⟨⟨ip, hip, rfl⟩, ?_⟩
      intro e he
      have : ¬ (cp.name == e.1.name) := by
        intro hc
        exact hf (List.any_eq_true.mpr ⟨e, he, hc⟩)
      have hcpe : cp.name ≠ e.1.name := by
        intro hc
        exact this (by simp [hc])
      have hipcp : ip.name = cp.name := by simpa using hn
      simp [Operation.package, hipcp]
      intro hc
      exact hcpe hc.symm
    · rw [if_neg hn] at hite
      cases hite

/-- Every operation of the synchronize sweep is an Uninstall of an
installed package whose name is absent from the result names, is not
"pip" unless "pip" is a result name, and differs from the root name. -/
theorem syncSweep_shape (rn : List String) (root : Option Package)
    (u : List String) (inst : List Package) (op : Operation)
    (h : op ∈ syncSweep rn root u inst) :
    ∃ p, p ∈ inst ∧ op = Operation.uninstall p 0 none ∧
      rn.contains p.name = false ∧
      (p.name = "pip" → rn.contains "pip" = true) ∧
      (∀ r, root = some r → p.name ≠ r.name) := by
  induction inst generalizing u with
  | nil => simp [syncSweep] at h
  | cons ip rest ih =>
    unfold syncSweep at h
    split_ifs at h with h1 h2 h3 h4
    · obtain ⟨p, hp, rest'⟩ := ih u h
      exact ⟨p, List.mem_cons_of_mem ip hp, rest'⟩
    · obtain ⟨p, hp, rest'⟩ := ih u h
      exact ⟨p, List.mem_cons_of_mem ip hp, rest'⟩
    · obtain ⟨p, hp, rest'⟩ := ih u h
      exact ⟨p, List.mem_cons_of_mem ip hp, rest'⟩
    · obtain ⟨p, hp, rest'⟩ := ih u h
      exact ⟨p, List.mem_cons_of_mem ip hp, rest'⟩
    · rcases List.mem_cons.mp h with rfl | h5
      · refine ⟨ip, List.mem_cons_self ip rest, rfl, ?_, ?_, ?_⟩
        · exact Bool.eq_false_iff.mpr h4
        · intro hpip
          exfalso
          apply h3
          have hc : rn.contains "pip" = false := by
            rw [hpip] at h4
            exact Bool.eq_false_iff.mpr h4
          simp [hpip]
          simpa using hc
        · intro r hr hne
          apply h2
          rw [hr]
          simp [hne]
      · obtain ⟨p, hp, rest'⟩ := ih (ip.name :: u) h5
        exact ⟨p, List.mem_cons_of_mem ip hp, rest'⟩

/-! ### Helpers about name-unique lists, the sort wrapper and the extras
closure -/

/-- In a name-unique installed list, the name search of the source finds
exactly the member bearing the searched name. -/
theorem find?_of_name_unique (l : List Package) (ip : Package) (nm : String)
    (hu : l.Pairwise (fun a b => a.name ≠ b.name)) (hmem : ip ∈ l)
    (hnm : ip.name = nm) : l.find? (fun q => q.name == nm) = some ip := by
  subst hnm
  induction l with
  | nil => simp at hmem
  | cons a rest ih =>
    rcases List.mem_cons.mp hmem with rfl | hmem2
    · exact List.find?_cons_of_pos _ (by simp)
    · have ha : a.name ≠ ip.name := (List.pairwise_cons.mp hu).1 ip hmem2
      rw [List.find?_cons_of_neg _ (by simp [ha])]
      exact ih (List.pairwise_cons.mp hu).2 hmem2

/-- The sorted output is a permutation of the accumulated operations, so
membership transfers. -/
theorem mem_insertionSort_ops (raw : List Operation) (op : Operation) :
    op ∈ List.insertionSort opLE raw ↔ op ∈ raw :=
  (List.perm_insertionSort opLE raw).mem_iff

/-- Destructuring a defined planner output into the sorted accumulation. -/
theorem calculateOperations_some (t : Transaction) (wu sync sd : Bool)
    (ex : Option (List String)) (ops : List Operation)
    (h : calculateOperations t wu sync sd ex = some ops) :
    ops = List.insertionSort opLE (accumulatedOps t wu sync sd ex) := by
  unfold calculateOperations calculateOperationsUnsorted at h
  split_ifs at h with hguard
  · simp at h
  · simp only [Option.map_some'] at h
    exact (Option.some.inj h).symm

/-- A dependency walk started from no names stays empty. -/
theorem extraStep_nil (packages : List Package) : extraStep packages [] = [] := by
  unfold extraStep
  simp

theorem extraWalk_nil (packages : List Package) (n : Nat) :
    extraWalk packages n [] = [] := by
  induction n with
  | zero => rfl
  | succ n ih =>
    unfold extraWalk
    rw [extraStep_nil]
    exact ih

/-- The extras resolver returns the empty closure when no extras are
selected. -/
theorem get_extra_package_names_empty (packages : List Package)
    (extrasMap : List (String × List String)) :
    get_extra_package_names packages extrasMap [] = [] := by
  unfold get_extra_package_names
  simp [extraWalk_nil]

/-- Classification contributes nothing with a given target name when no
result entry bears that name. -/
theorem classifyOps_filter_nil (inst : List Package) (eg : Bool)
    (eps : List String) (sd : Bool) (res : List (Package × Int)) (nm : String)
    (h : ∀ e ∈ res, e.1.name ≠ nm) :
    (classifyOps inst eg eps sd res).filter (fun o => o.package.name == nm) = [] := by
  rw [List.filter_eq_nil_iff]
  intro op hop
  obtain ⟨e, he, hname⟩ := classifyOps_name_mem inst eg eps sd res op hop
  have : op.package.name ≠ nm := by
    rw [← hname]
    exact h e he
  simp [this]

/-- With name-unique result entries, the classification operations bearing
the name of one entry are exactly the classification of that entry. -/
theorem classifyOps_filter_eq (inst : List Package) (eg : Bool)
    (eps : List String) (sd : Bool) (res : List (Package × Int))
    (rp : Package) (pr : Int)
    (hu : res.Pairwise (fun a b => a.1.name ≠ b.1.name)) (hmem : (rp, pr) ∈ res) :
    (classifyOps inst eg eps sd res).filter (fun o => o.package.name == rp.name) =
      classifyOne inst eg eps sd rp pr := by
  induction res with
  | nil => simp at hmem
  | cons e rest ih =>
    have hstep : classifyOps inst eg eps sd (e :: rest) =
        classifyOne inst eg eps sd e.1 e.2 ++ classifyOps inst eg eps sd rest := by
      unfold classifyOps
      rw [List.flatMap_cons]
    rw [hstep, List.filter_append]
    rcases List.mem_cons.mp hmem with heq | hmem2
    · have he1 : e.1 = rp := by rw [← heq]
      have he2 : e.2 = pr := by rw [← heq]
      have hself : (classifyOne inst eg eps sd e.1 e.2).filter
          (fun o => o.package.name == rp.name) = classifyOne inst eg eps sd e.1 e.2 := by
        rw [List.filter_eq_self]
        intro op hop
        have := classifyOne_package_name inst eg eps sd e.1 e.2 op hop
        rw [this, he1]
        simp
      have hrest : (classifyOps inst eg eps sd rest).filter
          (fun o => o.package.name == rp.name) = [] := by
        apply classifyOps_filter_nil
        intro b hb
        have := (List.pairwise_cons.mp hu).1 b hb
        rw [he1] at this
        exact this.symm
      rw [hself, hrest, List.append_nil, he1, he2]
    · have hhead : (classifyOne inst eg eps sd e.1 e.2).filter
          (fun o => o.package.name == rp.name) = [] := by
        rw [List.filter_eq_nil_iff]
        intro op hop
        have hn := classifyOne_package_name inst eg eps sd e.1 e.2 op hop
        have hne : e.1.name ≠ rp.name := (List.pairwise_cons.mp hu).1 (rp, pr) hmem2
        rw [hn]
        simp [hne]
      rw [hhead, List.nil_append]
      exact ih (List.pairwise_cons.mp hu).2 hmem2

/-! ### Concrete packages for the check inputs -/

/-- A plain index package bearing the given name and version. -/
def plainPkg (nm : String) (v : Nat) : Package :=
  ⟨nm, v, none, none, none, false, [], []⟩

/-- An optional plain package named "a". -/
def optPkgA : Package := ⟨"a", 1, none, none, none, true, [], []⟩

/-- A root package named "root". -/
def rootPkgR : Package := plainPkg "root" 1

/-! ### Claim theorems -/

/-- C6: supplying extras while the root package is null is a precondition
violation: the planner fails fast (the embedded assertion produces no
result) instead of proceeding with an empty closure. -/
theorem extras_without_root_fails (t : Transaction) (wu sync sd : Bool)
    (es : List String) (h : t.rootPackage = none) :
    calculateOperations t wu sync sd (some es) = none := by
  unfold calculateOperations calculateOperationsUnsorted
  rw [h]
  simp

theorem extras_without_root_fails_witness :
    calculateOperations ⟨[], [], [], none⟩ true false false (some []) = none :=
  extras_without_root_fails ⟨[], [], [], none⟩ true false false [] rfl

/-- C9: with_uninstalls=false does not guarantee an Uninstall-free output:
an installed result package that is optional and outside the requested
(empty) extras closure is uninstalled during classification, before the
with_uninstalls flag is consulted. -/
theorem uninstall_emitted_despite_flag_off :
    calculateOperations ⟨[], [(optPkgA, 0)], [optPkgA], some rootPkgR⟩
        false false false (some []) =
      some [Operation.uninstall optPkgA 0 none] := by
  rfl

/-- C10: with with_uninstalls=false the output does not depend on the
current package list: transactions differing only in current_packages
produce identical operation lists. -/
theorem current_independent_without_uninstalls (cur1 cur2 : List Package)
    (res : List (Package × Int)) (inst : List Package) (root : Option Package)
    (sync sd : Bool) (extras : Option (List String)) :
    calculateOperations ⟨cur1, res, inst, root⟩ false sync sd extras =
      calculateOperations ⟨cur2, res, inst, root⟩ false sync sd extras := by
  rfl

/-- C7: the returned operation list is sorted by priority descending, then
package name ascending, then package version ascending (the key of an
Update operation being taken from its destination package, which is what
`Operation.package` returns), and it is a permutation of the accumulated
operations, irrespective of the order in which they were accumulated. -/
theorem output_sorted_by_key (t : Transaction) (wu sync sd : Bool)
    (ex : Option (List String)) (ops : List Operation)
    (h : calculateOperations t wu sync sd ex = some ops) :
    ops.Pairwise opLE ∧ ops.Perm (accumulatedOps t wu sync sd ex) := by
  have heq := calculateOperations_some t wu sync sd ex ops h
  subst heq
  exact ⟨List.sorted_insertionSort opLE (accumulatedOps t wu sync sd ex),
    List.perm_insertionSort opLE (accumulatedOps t wu sync sd ex)⟩

/-- A package named "hi". -/
def pkgHigh : Package := plainPkg "hi" 1

/-- A package named "lo". -/
def pkgLow : Package := plainPkg "lo" 1

theorem output_sorted_by_key_witness :
    calculateOperations ⟨[], [(pkgLow, 5), (pkgHigh, 10)], [], none⟩
        true false false none =
      some [Operation.install pkgHigh 10 none, Operation.install pkgLow 5 none] ∧
      ([Operation.install pkgHigh 10 none, Operation.install pkgLow 5 none].Pairwise opLE ∧
        List.Perm [Operation.install pkgHigh 10 none, Operation.install pkgLow 5 none]
          (accumulatedOps ⟨[], [(pkgLow, 5), (pkgHigh, 10)], [], none⟩ true false false none)) :=
  ⟨rfl, output_sorted_by_key ⟨[], [(pkgLow, 5), (pkgHigh, 10)], [], none⟩
    true false false none _ rfl⟩

/-- An installed package named "pip". -/
def pipPkg : Package := plainPkg "pip" 1

/-- C1 counterexample: with synchronize=true, an installed package named
"pip" that was dropped from the current set is uninstalled by the removal
sweep even though "pip" does not appear anywhere in the (empty) result
set, so the output does target pip with an Uninstall. -/
theorem pip_uninstalled_despite_absence_from_result :
    Transaction.resultPackages ⟨[pipPkg], [], [pipPkg], none⟩ = [] ∧
      calculateOperations ⟨[pipPkg], [], [pipPkg], none⟩ true true false none =
        some [Operation.uninstall pipPkg 0 none] :=
  ⟨rfl, rfl⟩

/-- C1 (amended): an Uninstall emitted by the synchronize sweep never
targets an installed package named "pip" unless "pip" appears among the
result names, and never targets a package bearing the root package name;
the pip and root protections hold only for the synchronize sweep, since
the removal sweep of dropped current packages checks neither. -/
theorem sync_sweep_protection (rn : List String) (root : Option Package)
    (u : List String) (inst : List Package) (p : Package) (pr : Int)
    (sr : Option String)
    (h : Operation.uninstall p pr sr ∈ syncSweep rn root u inst) :
    (p.name = "pip" → rn.contains "pip" = true) ∧
      ∀ r, root = some r → p.name ≠ r.name := by
  obtain ⟨q, hq, heq, hrn, hpip, hroot⟩ := syncSweep_shape rn root u inst _ h
  injection heq with h1 h2 h3
  subst h1
  exact ⟨hpip, hroot⟩

/-- A plain package named "b". -/
def pkgB : Package := plainPkg "b" 1

theorem sync_sweep_protection_witness :
    Operation.uninstall pkgB 0 none ∈ syncSweep [] (some rootPkgR) [] [pkgB] ∧
      ((pkgB.name = "pip" → List.contains [] "pip" = true) ∧
        ∀ r, some rootPkgR = some r → pkgB.name ≠ r.name) :=
  ⟨by decide, sync_sweep_protection [] (some rootPkgR) [] [pkgB] pkgB 0 none (by decide)⟩

/-- C8: no package name is targeted both by a removal-sweep Uninstall and
by a classification-phase operation: the removal sweep only fires for
names absent from the result set while classification only emits
operations for names present in it (the name-uniqueness assumptions of
the claim are carried although the disjointness holds by construction). -/
theorem sweep_and_classification_disjoint (cur : List Package)
    (res : List (Package × Int)) (inst : List Package) (eg : Bool)
    (eps : List String) (sd : Bool)
    (hcu : cur.Pairwise (fun a b => a.name ≠ b.name))
    (hru : res.Pairwise (fun a b => a.1.name ≠ b.1.name))
    (hiu : inst.Pairwise (fun a b => a.name ≠ b.name)) :
    (∀ op ∈ removalSweepOps cur res inst, ∀ e ∈ res, e.1.name ≠ op.package.name) ∧
      (∀ op ∈ classifyOps inst eg eps sd res, ∃ e ∈ res, e.1.name = op.package.name) ∧
      (∀ o1 ∈ removalSweepOps cur res inst, ∀ o2 ∈ classifyOps inst eg eps sd res,
        o1.package.name ≠ o2.package.name) := by
  refine ⟨?_, ?_, ?_⟩
  · intro op hop
    exact (removalSweepOps_shape cur res inst op hop).2
  · intro op hop
    exact classifyOps_name_mem inst eg eps sd res op hop
  · intro o1 h1 o2 h2 heq
    obtain ⟨e, he, hen⟩ := classifyOps_name_mem inst eg eps sd res o2 h2
    exact (removalSweepOps_shape cur res inst o1 h1).2 e he (by rw [hen, heq])

/-- A plain package named "c". -/
def pkgC : Package := plainPkg "c" 1

theorem sweep_and_classification_disjoint_witness :
    ([pkgC].Pairwise (fun a b => a.name ≠ b.name) ∧
      [(pkgB, (0 : Int))].Pairwise (fun a b => a.1.name ≠ b.1.name) ∧
      [pkgC, pkgB].Pairwise (fun a b => a.name ≠ b.name)) ∧
      ((∀ op ∈ removalSweepOps [pkgC] [(pkgB, 0)] [pkgC, pkgB],
          ∀ e ∈ [(pkgB, (0 : Int))], e.1.name ≠ op.package.name) ∧
        (∀ op ∈ classifyOps [pkgC, pkgB] false [] false [(pkgB, 0)],
          ∃ e ∈ [(pkgB, (0 : Int))], e.1.name = op.package.name) ∧
        (∀ o1 ∈ removalSweepOps [pkgC] [(pkgB, 0)] [pkgC, pkgB],
          ∀ o2 ∈ classifyOps [pkgC, pkgB] false [] false [(pkgB, 0)],
          o1.package.name ≠ o2.package.name)) :=
  ⟨by decide, sweep_and_classification_disjoint [pkgC] [(pkgB, 0)] [pkgC, pkgB]
    false [] false (by decide) (by decide) (by decide)⟩

/-- Unfolding of the classification of one entry when the name search
succeeds. -/
theorem classifyOne_found (inst : List Package) (eg : Bool) (eps : List String)
    (sd : Bool) (rp : Package) (pr : Int) (ip : Package)
    (hfind : inst.find? (fun q => q.name == rp.name) = some ip) :
    classifyOne inst eg eps sd rp pr =
      if isUnsolicitedExtra eg rp eps then [.uninstall ip 0 none]
      else if rp.version != ip.version
          || ((strTruthy ip.sourceType || !(rp.sourceType == some "legacy"))
              && !(rp.is_same_package_as ip)) then [.update ip rp pr none]
      else [.install rp 0 (some "Already installed")] := by
  unfold classifyOne
  rw [hfind]

/-- Unfolding of the classification of one entry when the name search
fails. -/
theorem classifyOne_not_found (inst : List Package) (eg : Bool)
    (eps : List String) (sd : Bool) (rp : Package) (pr : Int)
    (hfind : inst.find? (fun q => q.name == rp.name) = none) :
    classifyOne inst eg eps sd rp pr =
      if sd && (rp.sourceType == some "directory") then []
      else [.install rp pr
        (if isUnsolicitedExtra eg rp eps then some "Not required" else none)] := by
  unfold classifyOne
  rw [hfind]

/-- C2 counterexample: every result package has an identical-version,
structurally-equal installed counterpart and with_uninstalls=false, yet -
because extras are supplied as the empty set and the result package is
optional - the output is an Uninstall rather than only skipped Installs:
the claim fails for calls that make a result package an unsolicited
extra. -/
theorem noop_property_counterexample :
    (∀ e ∈ [(optPkgA, (0 : Int))], ∃ ip ∈ [optPkgA],
        ip.name = e.1.name ∧ ip.version = e.1.version ∧
          e.1.is_same_package_as ip = true) ∧
      calculateOperations ⟨[], [(optPkgA, 0)], [optPkgA], some rootPkgR⟩
          false false false (some []) =
        some [Operation.uninstall optPkgA 0 none] ∧
      ¬∃ p, Operation.uninstall optPkgA 0 none =
          Operation.install p 0 (some "Already installed") := by
  refine ⟨by decide, rfl, ?_⟩
  rintro ⟨p, hp⟩
  exact Operation.noConfusion hp

/-- C2 (amended): if every result package has an identical-version,
structurally-equal counterpart among the name-unique installed packages,
no result package is an unsolicited extra, and with_uninstalls=false,
then the output consists solely of Install operations marked skip
"Already installed"; in particular no Update or Uninstall appears. -/
theorem noop_property (t : Transaction) (sync sd : Bool)
    (ex : Option (List String))
    (hiu : t.installedPackages.Pairwise (fun a b => a.name ≠ b.name))
    (hns : ∀ e ∈ t.resultPackages,
      isUnsolicitedExtra ex.isSome e.1 (extraPackagesOf t ex) = false)
    (hcover : ∀ e ∈ t.resultPackages, ∃ ip ∈ t.installedPackages,
      ip.name = e.1.name ∧ ip.version = e.1.version ∧
        e.1.is_same_package_as ip = true)
    (ops : List Operation)
    (hops : calculateOperations t false sync sd ex = some ops) :
    ∀ op ∈ ops, ∃ p, op = Operation.install p 0 (some "Already installed") := by
  have heq := calculateOperations_some t false sync sd ex ops hops
  subst heq
  intro op hop
  rw [mem_insertionSort_ops] at hop
  unfold accumulatedOps at hop
  simp only [Bool.false_and, Bool.false_eq_true, if_false, List.append_nil] at hop
  unfold classifyOps at hop
  rw [List.mem_flatMap] at hop
  obtain ⟨e, he, hone⟩ := hop
  obtain ⟨ip, hipmem, hname, hver, hsame⟩ := hcover e he
  have hfind := find?_of_name_unique t.installedPackages ip e.1.name hiu hipmem hname
  have hcond : (e.1.version != ip.version
      || ((strTruthy ip.sourceType || !(e.1.sourceType == some "legacy"))
          && !(e.1.is_same_package_as ip))) = false := by
    rw [hsame]
    simp [hver]
  rw [classifyOne_found t.installedPackages ex.isSome (extraPackagesOf t ex)
    sd e.1 e.2 ip hfind, hns e he, hcond] at hone
  simp at hone
  exact ⟨e.1, hone⟩

theorem noop_property_witness :
    calculateOperations ⟨[], [(pkgB, 3)], [pkgB], none⟩ false false false none =
        some [Operation.install pkgB 0 (some "Already installed")] ∧
      ∀ op ∈ [Operation.install pkgB 0 (some "Already installed")],
        ∃ p, op = Operation.install p 0 (some "Already installed") :=
  ⟨rfl, noop_property ⟨[], [(pkgB, 3)], [pkgB], none⟩ false false none
    (by decide) (by decide) (by decide) _ rfl⟩

/-- A result package coming from a legacy index. -/
def legacyRp : Package := ⟨"leg", 1, some "legacy", some "url", some "ref", true, [], []⟩

/-- The corresponding installed package: legacy-installed packages surface
with an absent source_type. -/
def legacyIp : Package := ⟨"leg", 1, none, some "url", some "ref", false, [], []⟩

/-- C3 counterexample: an installed package with absent source_type
matched by a result package with source_type "legacy", the same version
and the same source url and reference (the satisfiable part of structural
equality: the source types necessarily differ) does not classify to a
skipped Install when the result package is an unsolicited extra - it
classifies to an Uninstall, so the claim fails for such calls. -/
theorem legacy_quirk_counterexample :
    (legacyIp.sourceType = none ∧ legacyRp.sourceType = some "legacy" ∧
      legacyRp.version = legacyIp.version ∧
      legacyRp.sourceUrl = legacyIp.sourceUrl ∧
      legacyRp.sourceReference = legacyIp.sourceReference ∧
      [legacyIp].find? (fun q => q.name == legacyRp.name) = some legacyIp) ∧
      classifyOne [legacyIp] true [] false legacyRp 0 =
        [Operation.uninstall legacyIp 0 none] :=
  ⟨by decide, rfl⟩

/-- C3 (amended): an installed package with absent source_type found as
the name match of a result package with source_type "legacy" (the spec
calls this source type legacy-index) and the same version classifies -
when the result package is not an unsolicited extra - to an Install
marked skip "Already installed"; no Update is emitted for it. The
structural-equality hypothesis of the claim is dropped: it cannot hold
between an absent and a "legacy" source type, and the quirk holds
without it. -/
theorem legacy_quirk_no_update (inst : List Package) (eg : Bool)
    (eps : List String) (sd : Bool) (rp ip : Package) (pr : Int)
    (hfind : inst.find? (fun q => q.name == rp.name) = some ip)
    (hst : ip.sourceType = none)
    (hrst : rp.sourceType = some "legacy")
    (hver : rp.version = ip.version)
    (hns : isUnsolicitedExtra eg rp eps = false) :
    classifyOne inst eg eps sd rp pr =
      [Operation.install rp 0 (some "Already installed")] := by
  rw [classifyOne_found inst eg eps sd rp pr ip hfind, hns]
  have hcond : (rp.version != ip.version
      || ((strTruthy ip.sourceType || !(rp.sourceType == some "legacy"))
          && !(rp.is_same_package_as ip))) = false := by
    rw [hst, hrst, hver]
    simp [strTruthy]
  rw [hcond]
  simp

theorem legacy_quirk_witness :
    ([legacyIp].find? (fun q => q.name == legacyRp.name) = some legacyIp ∧
      legacyIp.sourceType = none ∧ legacyRp.sourceType = some "legacy" ∧
      legacyRp.version = legacyIp.version ∧
      isUnsolicitedExtra false legacyRp [] = false) ∧
      classifyOne [legacyIp] false [] false legacyRp 0 =
        [Operation.install legacyRp 0 (some "Already installed")] :=
  ⟨by decide, legacy_quirk_no_update [legacyIp] false [] false legacyRp legacyIp 0
    rfl rfl rfl rfl rfl⟩

/-- Membership in the classification phase gives membership in the sorted
output. -/
theorem mem_ops_of_mem_classify (t : Transaction) (wu sync sd : Bool)
    (ex : Option (List String)) (op : Operation)
    (h : op ∈ classifyOps t.installedPackages ex.isSome (extraPackagesOf t ex) sd
      t.resultPackages) :
    op ∈ List.insertionSort opLE (accumulatedOps t wu sync sd ex) := by
  rw [mem_insertionSort_ops]
  exact List.mem_append_left _ (List.mem_append_left _ h)

/-- An optional directory-sourced package. -/
def dirPkg : Package := ⟨"dir", 1, some "directory", none, none, true, [], []⟩

/-- C5 counterexample: with extras supplied as the empty set, a root
package given, skip_directory=true and an optional directory-sourced
result package that is not installed, the output is empty - it contains
no Install marked skip "Not required", so the claim fails for such
calls. -/
theorem extras_exclusion_counterexample :
    (dirPkg.optional = true ∧ (∀ ip ∈ ([] : List Package), ip.name ≠ dirPkg.name)) ∧
      calculateOperations ⟨[], [(dirPkg, 0)], [], some rootPkgR⟩ true false true
          (some []) = some [] :=
  ⟨by decide, rfl⟩

/-- C5 (amended): with extras supplied as the empty set and a root package
given, a result package marked optional with a same-named counterpart in
the name-unique installed list yields an Uninstall of that counterpart in
the output; if no same-named installed package exists it yields an
Install marked skip "Not required", unless skip_directory is set and the
package is directory-sourced. -/
theorem extras_exclusion (t : Transaction) (wu sync sd : Bool) (r : Package)
    (hroot : t.rootPackage = some r)
    (hiu : t.installedPackages.Pairwise (fun a b => a.name ≠ b.name))
    (rp : Package) (pr : Int) (hmem : (rp, pr) ∈ t.resultPackages)
    (hopt : rp.optional = true)
    (ops : List Operation)
    (hops : calculateOperations t wu sync sd (some []) = some ops) :
    (∀ ip ∈ t.installedPackages, ip.name = rp.name →
        Operation.uninstall ip 0 none ∈ ops) ∧
      ((∀ ip ∈ t.installedPackages, ip.name ≠ rp.name) →
        (sd = true → rp.sourceType ≠ some "directory") →
        Operation.install rp pr (some "Not required") ∈ ops) := by
  have heq := calculateOperations_some t wu sync sd (some []) ops hops
  subst heq
  have hext : extraPackagesOf t (some []) = [] := by
    unfold extraPackagesOf
    rw [hroot]
    exact get_extra_package_names_empty _ _
  have huns : isUnsolicitedExtra (some ([] : List String)).isSome rp
      (extraPackagesOf t (some [])) = true := by
    rw [hext]
    unfold isUnsolicitedExtra
    rw [hopt]
    rfl
  constructor
  · intro ip hip hnameeq
    have hfind := find?_of_name_unique t.installedPackages ip rp.name hiu hip hnameeq
    have hone : classifyOne t.installedPackages (some ([] : List String)).isSome
        (extraPackagesOf t (some [])) sd rp pr = [Operation.uninstall ip 0 none] := by
      rw [classifyOne_found _ _ _ _ _ _ _ hfind, huns]
      simp
    apply mem_ops_of_mem_classify
    unfold classifyOps
    rw [List.mem_flatMap]
    refine ⟨(rp, pr), hmem, ?_⟩
    show Operation.uninstall ip 0 none ∈ classifyOne t.installedPackages
      (some ([] : List String)).isSome (extraPackagesOf t (some [])) sd rp pr
    rw [hone]
    exact List.mem_singleton.mpr rfl
  · intro hnone hdir
    have hfind : t.installedPackages.find? (fun q => q.name == rp.name) = none := by
      rw [List.find?_eq_none]
      intro x hx
      simp [hnone x hx]
    have hsd : (sd && (rp.sourceType == some "directory")) = false := by
      cases sd
      · rfl
      · have hne := hdir rfl
        simp [hne]
    have hone : classifyOne t.installedPackages (some ([] : List String)).isSome
        (extraPackagesOf t (some [])) sd rp pr =
        [Operation.install rp pr (some "Not required")] := by
      rw [classifyOne_not_found _ _ _ _ _ _ hfind, hsd, huns]
      simp
    apply mem_ops_of_mem_classify
    unfold classifyOps
    rw [List.mem_flatMap]
    refine ⟨(rp, pr), hmem, ?_⟩
    show Operation.install rp pr (some "Not required") ∈ classifyOne t.installedPackages
      (some ([] : List String)).isSome (extraPackagesOf t (some [])) sd rp pr
    rw [hone]
    exact List.mem_singleton.mpr rfl

theorem extras_exclusion_witness :
    ((⟨[], [(optPkgA, 0)], [optPkgA], some rootPkgR⟩ : Transaction).rootPackage =
        some rootPkgR ∧
      [optPkgA].Pairwise (fun a b => a.name ≠ b.name) ∧
      (optPkgA, (0 : Int)) ∈ [(optPkgA, (0 : Int))] ∧ optPkgA.optional = true) ∧
      ((∀ ip ∈ [optPkgA], ip.name = optPkgA.name →
          Operation.uninstall ip 0 none ∈ [Operation.uninstall optPkgA 0 none]) ∧
        ((∀ ip ∈ [optPkgA], ip.name ≠ optPkgA.name) →
          (false = true → optPkgA.sourceType ≠ some "directory") →
          Operation.install optPkgA 0 (some "Not required") ∈
            [Operation.uninstall optPkgA 0 none])) := by
  refine ⟨by decide, ?_⟩
  have h := extras_exclusion ⟨[], [(optPkgA, 0)], [optPkgA], some rootPkgR⟩
    true false false rootPkgR rfl (by decide) optPkgA 0 (by decide) rfl _ rfl
  exact h

/-- An optional result package named "d" at version 2. -/
def optPkgD : Package := ⟨"d", 2, none, none, none, true, [], []⟩

/-- An installed package named "d" at version 1. -/
def instPkgD : Package := ⟨"d", 1, none, none, none, false, [], []⟩

/-- C4 counterexample: a result package whose name matches an installed
package with a different version produces no Update at all when extras
are supplied as the empty set and the package is optional (an unsolicited
extra): the output is a single Uninstall, falsifying "exactly one Update
is emitted for that name". -/
theorem update_not_reinstall_counterexample :
    (instPkgD.name = optPkgD.name ∧ optPkgD.version ≠ instPkgD.version ∧
      (optPkgD, (0 : Int)) ∈ [(optPkgD, (0 : Int))] ∧ instPkgD ∈ [instPkgD]) ∧
      calculateOperations ⟨[], [(optPkgD, 0)], [instPkgD], some rootPkgR⟩
          true false false (some []) =
        some [Operation.uninstall instPkgD 0 none] :=
  ⟨by decide, rfl⟩

/-- C4 (amended): with name-unique result and installed sets, a result
package that is not an unsolicited extra and whose name matches an
installed package with a different version gives rise to exactly one
output operation targeting that name, namely the Update from the
installed package to the result package carrying the result entry
priority; in particular no paired Install plus Uninstall targets it. -/
theorem update_not_reinstall (t : Transaction) (wu sync sd : Bool)
    (ex : Option (List String))
    (hru : t.resultPackages.Pairwise (fun a b => a.1.name ≠ b.1.name))
    (hiu : t.installedPackages.Pairwise (fun a b => a.name ≠ b.name))
    (rp : Package) (pr : Int) (hmem : (rp, pr) ∈ t.resultPackages)
    (ip : Package) (hipmem : ip ∈ t.installedPackages) (hname : ip.name = rp.name)
    (hver : rp.version ≠ ip.version)
    (hns : isUnsolicitedExtra ex.isSome rp (extraPackagesOf t ex) = false)
    (ops : List Operation)
    (hops : calculateOperations t wu sync sd ex = some ops) :
    ops.filter (fun o => o.package.name == rp.name) =
      [Operation.update ip rp pr none] := by
  have heq := calculateOperations_some t wu sync sd ex ops hops
  subst heq
  have hacc : accumulatedOps t wu sync sd ex =
      classifyOps t.installedPackages ex.isSome (extraPackagesOf t ex) sd t.resultPackages
        ++ (if wu then removalSweepOps t.currentPackages t.resultPackages
              t.installedPackages else [])
        ++ (if wu && sync then
              syncSweep (t.resultPackages.map (fun e => e.1.name)) t.rootPackage
                (uninstallNames
                  (classifyOps t.installedPackages ex.isSome (extraPackagesOf t ex) sd
                      t.resultPackages ++
                    (if wu then removalSweepOps t.currentPackages t.resultPackages
                      t.installedPackages else [])))
                t.installedPackages
            else []) := rfl
  have hclass : (classifyOps t.installedPackages ex.isSome (extraPackagesOf t ex) sd
      t.resultPackages).filter (fun o => o.package.name == rp.name) =
      [Operation.update ip rp pr none] := by
    rw [classifyOps_filter_eq _ _ _ _ _ rp pr hru hmem]
    have hfind := find?_of_name_unique t.installedPackages ip rp.name hiu hipmem hname
    rw [classifyOne_found _ _ _ _ _ _ _ hfind, hns]
    have hcond : (rp.version != ip.version
        || ((strTruthy ip.sourceType || !(rp.sourceType == some "legacy"))
            && !(rp.is_same_package_as ip))) = true := by
      have hv : (rp.version != ip.version) = true := by simp [hver]
      rw [hv]
      rfl
    rw [hcond]
    simp
  have hrem : (if wu then removalSweepOps t.currentPackages t.resultPackages
      t.installedPackages else []).filter (fun o => o.package.name == rp.name) = [] := by
    cases wu
    · rfl
    · rw [if_pos rfl, List.filter_eq_nil_iff]
      intro op hop
      have hne := (removalSweepOps_shape _ _ _ op hop).2 (rp, pr) hmem
      simp only [beq_iff_eq]
      intro hc
      exact hne hc.symm
  have hsync : ∀ u : List String, (if wu && sync then
      syncSweep (t.resultPackages.map (fun e => e.1.name)) t.rootPackage u
        t.installedPackages else []).filter (fun o => o.package.name == rp.name) = [] := by
    intro u
    by_cases hws : (wu && sync) = true
    · rw [if_pos hws, List.filter_eq_nil_iff]
      intro op hop
      obtain ⟨p, hpmem, hopeq, hrnc, hpip, hproot⟩ := syncSweep_shape _ _ _ _ op hop
      have hrpmem : rp.name ∈ t.resultPackages.map (fun e => e.1.name) :=
        List.mem_map.mpr ⟨(rp, pr), hmem, rfl⟩
      have hpn : p.name ∉ t.resultPackages.map (fun e => e.1.name) := by
        simpa using hrnc
      have hopn : op.package.name = p.name := by
        rw [hopeq]
        rfl
      simp only [beq_iff_eq]
      intro hc
      rw [hopn] at hc
      exact hpn (by rw [hc]; exact hrpmem)
    · rw [if_neg hws]
      rfl
  have hraw : (accumulatedOps t wu sync sd ex).filter
      (fun o => o.package.name == rp.name) = [Operation.update ip rp pr none] := by
    rw [hacc, List.filter_append, List.filter_append, hclass, hrem, hsync]
    simp
  have hperm := (List.perm_insertionSort opLE (accumulatedOps t wu sync sd ex)).filter
    (fun o => o.package.name == rp.name)
  rw [hraw] at hperm
  exact List.perm_singleton.mp hperm

/-- A plain result package named "e" at version 2. -/
def pkgEnew : Package := plainPkg "e" 2

/-- A plain installed package named "e" at version 1. -/
def pkgEold : Package := plainPkg "e" 1

theorem update_not_reinstall_witness :
    ((pkgEnew, (7 : Int)) ∈ [(pkgEnew, (7 : Int))] ∧ pkgEold ∈ [pkgEold] ∧
      pkgEold.name = pkgEnew.name ∧ pkgEnew.version ≠ pkgEold.version) ∧
      (List.insertionSort opLE (accumulatedOps
          ⟨[], [(pkgEnew, 7)], [pkgEold], none⟩ true false false none)).filter
        (fun o => o.package.name == pkgEnew.name) =
        [Operation.update pkgEold pkgEnew 7 none] :=
  ⟨by decide, update_not_reinstall ⟨[], [(pkgEnew, 7)], [pkgEold], none⟩ true false false
    none (by decide) (by decide) pkgEnew 7 (by decide) pkgEold (by decide) (by decide)
    (by decide) (by decide) _ rfl⟩
